import Mathlib

/-!
Verification of the Borland-demangler AST core
(`src/demangler_llvm/borland_ast.cpp` of retdec).

Two components are embedded:

* the node tree and its two-phase (left/right) printing protocol, modelled as
  an inductive `Node` whose print functions thread an output stream, modelled
  as the list of characters written so far (`std::ostream` used only via
  `operator<<` appends);
* the canonicalization (hash-consing) context for `NameNode` and
  `NestedNameNode`, where C++ pointer identity is modelled by a natural-number
  id allocated from the context.  The `Context` class itself lives in
  `context.h`/`context.cpp`, which the source slice does not contain, so its
  lookup/registration behaviour is modelled from the spec.
-/

set_option autoImplicit false

namespace RetdecBorland

/-- The AST node tree: one constructor per concrete variant implemented in
`borland_ast.cpp`.  Shared `std::shared_ptr` children are dereferenced into
subtrees (printing only follows the pointers, never compares them).
`functionType` stands for `FunctionTypeNode`, whose implementation is in
`borland_ast_types.cpp` (outside the slice); see its print cases below. -/
inductive Node where
  | name (nm : String)
  | nestedName (sup : Node) (nm : Node)
  | function (nm : Node) (ftype : Node)
  | templateN (nm : Node) (params : Option Node)
  | nodeArray (nodes : List Node)
  | conversionOperator (type : Node)
  | functionType (retType : Node) (params : Node)

/-- `_has_right` as fixed by each variant's constructor: every constructor in
`borland_ast.cpp` passes `false` or leaves the default, which is `false`
(the header is outside the slice; the spec fixes the default to "no trailing
syntax").  Modelled from the spec: `FunctionTypeNode` is the one variant here
whose textual form continues after its left content, so it sets the flag. -/
def Node.hasRight : Node → Bool
  | .functionType _ _ => true
  | _ => false

mutual

/-- `Node::print`: `printLeft(s); if (_has_right) printRight(s);`. -/
def Node.print (n : Node) (s : List Char) : List Char :=
  let s1 := n.printLeft s
  if n.hasRight then n.printRight s1 else s1
termination_by (sizeOf n, 1)

/-- `printLeft` of each variant, transcribed case by case:

* `NameNode::printLeft`: `s << _name`;
* `NestedNameNode::printLeft`: `_super->print(s); s << "::"; _name->print(s)`;
* `FunctionNode::printLeft`: `_funcNode->printLeft(s); _name->print(s);
  _funcNode->printRight(s)`;
* `TemplateNode::printLeft`: `_name->print(s); s << "<";
  if (_params) _params->print(s); s << ">"`;
* `NodeArray::printLeft`: print the first node, then `", "` before each of
  the others (see `Node.printList`);
* `ConversionOperatorNode::printLeft`: `s << "operator "; _type->print(s)`;
* `functionType` is modelled from the spec: its left fragment is the return
  type (followed by a separating space), its right fragment the
  parenthesized parameter list. -/
def Node.printLeft : Node → List Char → List Char
  | .name nm, s => s ++ nm.toList
  | .nestedName sup nm, s => nm.print (sup.print s ++ "::".toList)
  | .function nm ftype, s => ftype.printRight (nm.print (ftype.printLeft s))
  | .templateN nm params, s =>
      (match params with
       | some p => p.print (nm.print s ++ "<".toList)
       | none => nm.print s ++ "<".toList) ++ ">".toList
  | .nodeArray nodes, s =>
      (match nodes with
       | [] => s
       | c :: rest => Node.printList rest (c.print s))
  | .conversionOperator type, s => type.print (s ++ "operator ".toList)
  | .functionType retType _, s => retType.print s ++ " ".toList
termination_by n _ => (sizeOf n, 0)

/-- The loop of `NodeArray::printLeft`: `while (++current != end)
{ s << ", "; (*current)->print(s); }`. -/
def Node.printList : List Node → List Char → List Char
  | [], s => s
  | c :: rest, s => Node.printList rest (c.print (s ++ ", ".toList))
termination_by l _ => (sizeOf l, 0)

/-- `Node::printRight` is a no-op for every variant of `borland_ast.cpp`
(none overrides it).  Modelled from the spec: `FunctionTypeNode` overrides it
to emit the parenthesized parameter list. -/
def Node.printRight : Node → List Char → List Char
  | .functionType _ params, s => params.print (s ++ "(".toList) ++ ")".toList
  | _, s => s
termination_by n _ => (sizeOf n, 0)

end

/-- `Node::str`: print into a fresh `std::stringstream` and return its
contents. -/
def Node.str (n : Node) : String := String.mk (n.print [])

/-- `NodeArray::addNode`: `_nodes.push_back(node)`. -/
def NodeArray.addNode (nodes : List Node) (n : Node) : List Node := nodes ++ [n]

/-- `NodeArray::empty`. -/
def NodeArray.empty (nodes : List Node) : Bool := nodes.isEmpty

/-- `NodeArray::size`. -/
def NodeArray.size (nodes : List Node) : Nat := nodes.length

/-- `NodeArray::get`: `i < _nodes.size() ? _nodes.at(i) : nullptr`. -/
def NodeArray.get (nodes : List Node) (i : Nat) : Option Node :=
  if h : i < nodes.length then some (nodes.get ⟨i, h⟩) else none

/-- `Qualifiers`: two independent flags stored by the constructor. -/
structure Qualifiers where
  isVolatile : Bool
  isConst : Bool

/-- `Qualifiers::printSpaceL`: `if (_isVolatile) s << " volatile";
if (_isConst) s << " const";`. -/
def Qualifiers.printSpaceL (q : Qualifiers) (s : List Char) : List Char :=
  let s1 := if q.isVolatile then s ++ " volatile".toList else s
  if q.isConst then s1 ++ " const".toList else s1

/-- `Qualifiers::printSpaceR`: `if (_isVolatile) s << "volatile ";
if (_isConst) s << "const ";`. -/
def Qualifiers.printSpaceR (q : Qualifiers) (s : List Char) : List Char :=
  let s1 := if q.isVolatile then s ++ "volatile ".toList else s
  if q.isConst then s1 ++ "const ".toList else s1

mutual

/-- Printing only appends: what `print` writes after an existing stream
content `s` is exactly what it writes into a fresh stream. -/
theorem Node.print_append (n : Node) (s : List Char) :
    n.print s = s ++ n.print [] := by
  rw [Node.print, Node.print]
  cases h : n.hasRight with
  | true =>
      simp only [h, if_true]
      rw [Node.printRight_append n (n.printLeft s),
        Node.printRight_append n (n.printLeft []),
        Node.printLeft_append n s, List.append_assoc]
  | false =>
      simp only [h, Bool.false_eq_true, if_false]
      exact Node.printLeft_append n s
termination_by (sizeOf n, 3)

theorem Node.printLeft_append (n : Node) (s : List Char) :
    n.printLeft s = s ++ n.printLeft [] := by
  cases n with
  | name nm => simp [Node.printLeft]
  | nestedName sup nm =>
      rw [Node.printLeft, Node.printLeft,
        Node.print_append sup s,
        Node.print_append nm (sup.print [] ++ "::".toList),
        Node.print_append nm ((s ++ sup.print []) ++ "::".toList)]
      simp
  | function nm ftype =>
      rw [Node.printLeft, Node.printLeft,
        Node.printLeft_append ftype s,
        Node.print_append nm (s ++ ftype.printLeft []),
        Node.print_append nm (ftype.printLeft []),
        Node.printRight_append ftype
          ((s ++ ftype.printLeft []) ++ nm.print []),
        Node.printRight_append ftype (ftype.printLeft [] ++ nm.print [])]
      simp
  | templateN nm params =>
      cases params with
      | none =>
          rw [Node.printLeft, Node.printLeft]
          rw [Node.print_append nm s]
          simp
      | some p =>
          rw [Node.printLeft, Node.printLeft]
          rw [Node.print_append nm s,
            Node.print_append p ((s ++ nm.print []) ++ "<".toList),
            Node.print_append p (nm.print [] ++ "<".toList)]
          simp
  | nodeArray nodes =>
      cases nodes with
      | nil => simp [Node.printLeft]
      | cons c rest =>
          rw [Node.printLeft, Node.printLeft]
          rw [Node.print_append c s,
            Node.printList_append rest (s ++ c.print []),
            Node.printList_append rest (c.print [])]
          simp
  | conversionOperator type =>
      rw [Node.printLeft, Node.printLeft,
        Node.print_append type (s ++ "operator ".toList),
        Node.print_append type (([] : List Char) ++ "operator ".toList)]
      simp
  | functionType retType params =>
      rw [Node.printLeft, Node.printLeft, Node.print_append retType s]
      simp
termination_by (sizeOf n, 2)

theorem Node.printList_append (l : List Node) (s : List Char) :
    Node.printList l s = s ++ Node.printList l [] := by
  cases l with
  | nil => simp [Node.printList]
  | cons c rest =>
      rw [Node.printList, Node.printList]
      rw [Node.print_append c (s ++ ", ".toList),
        Node.print_append c ((List.nil : List Char) ++ ", ".toList),
        Node.printList_append rest
          ((s ++ ", ".toList) ++ c.print []),
        Node.printList_append rest
          ((([] : List Char) ++ ", ".toList) ++ c.print [])]
      simp
termination_by (sizeOf l, 2)

theorem Node.printRight_append (n : Node) (s : List Char) :
    n.printRight s = s ++ n.printRight [] := by
  cases n with
  | functionType retType params =>
      rw [Node.printRight, Node.printRight,
        Node.print_append params (s ++ "(".toList),
        Node.print_append params ((List.nil : List Char) ++ "(".toList)]
      simp
  | name nm => simp [Node.printRight]
  | nestedName sup nm => simp [Node.printRight]
  | function nm ftype => simp [Node.printRight]
  | templateN nm params => simp [Node.printRight]
  | nodeArray nodes => simp [Node.printRight]
  | conversionOperator type => simp [Node.printRight]
termination_by (sizeOf n, 2)

end

/-- A canonicalized `NameNode` instance: `id` models the C++ heap address of
the `shared_ptr`-managed object (pointer identity), `name` its `_name`
field. -/
structure NameNode where
  id : Nat
  name : String
deriving DecidableEq

/-- A canonicalized `NestedNameNode` instance: `id` models its own address,
`superId`/`nameId` the addresses of the two child nodes it holds (the
cache keys only ever compare these pointers). -/
structure NestedNameNode where
  id : Nat
  superId : Nat
  nameId : Nat
deriving DecidableEq

/-- Modelled from the spec: the canonicalization `Context`
(`context.h`/`context.cpp`, outside the source slice) holds one interning
table per cacheable variant.  `nextId` models the allocator: every `new`
yields a fresh address. -/
structure Context where
  names : List NameNode
  nested : List NestedNameNode
  nextId : Nat

/-- A fresh, empty canonicalization context. -/
def Context.empty : Context := ⟨[], [], 0⟩

/-- Modelled from the spec: `getName(s)` returns a pre-existing `Name` node
whose equality key — the literal string value — equals `s`, if one is
registered in this context. -/
def Context.getName (C : Context) (s : String) : Option NameNode :=
  C.names.find? (fun n => n.name == s)

/-- Modelled from the spec: `addName(node)` registers a node in the
context. -/
def Context.addName (C : Context) (n : NameNode) : Context :=
  { C with names := n :: C.names }

/-- Modelled from the spec: `getNestedName(super, name)` returns a
pre-existing `NestedName` node whose equality key — the identity pair of its
two children — equals the given pointer pair, if one is registered. -/
def Context.getNestedName (C : Context) (sup nm : Nat) : Option NestedNameNode :=
  C.nested.find? (fun n => n.superId == sup && n.nameId == nm)

/-- Modelled from the spec: `addNestedName(node)` registers a node in the
context. -/
def Context.addNestedName (C : Context) (n : NestedNameNode) : Context :=
  { C with nested := n :: C.nested }

/-- `NameNode::create`: ask the context for a node with this name; if found,
return it, else allocate a new node, register it, and return it. -/
def NameNode.create (C : Context) (s : String) : NameNode × Context :=
  match C.getName s with
  | some t => (t, C)
  | none =>
      let newName : NameNode := ⟨C.nextId, s⟩
      (newName, { C.addName newName with nextId := C.nextId + 1 })

/-- `NestedNameNode::create`: ask the context for a node with this child
pair; if found, return it, else allocate a new node, register it, and return
it.  `sup` and `nm` are the ids (addresses) of the two already-built child
nodes. -/
def NestedNameNode.create (C : Context) (sup nm : Nat) :
    NestedNameNode × Context :=
  match C.getNestedName sup nm with
  | some t => (t, C)
  | none =>
      let newName : NestedNameNode := ⟨C.nextId, sup, nm⟩
      (newName, { C.addNestedName newName with nextId := C.nextId + 1 })

/-- Well-formedness of a context: every registered node was allocated below
`nextId`, and ids are unique (two registrations with the same address are the
same node) — exactly what holds for genuine heap addresses. -/
def Context.WF (C : Context) : Prop :=
  (∀ n ∈ C.names, n.id < C.nextId) ∧
  (∀ n ∈ C.nested, n.id < C.nextId) ∧
  (∀ n ∈ C.names, ∀ m ∈ C.names, n.id = m.id → n = m) ∧
  (∀ n ∈ C.nested, ∀ m ∈ C.nested, n.id = m.id → n = m)

theorem Context.empty_WF : Context.empty.WF := by
  refine ⟨?_, ?_, ?_, ?_⟩ <;> simp [Context.empty]

theorem NameNode.create_name (C : Context) (s : String) :
    (NameNode.create C s).1.name = s := by
  unfold NameNode.create
  cases h : C.getName s with
  | none => simp
  | some t =>
      simp only []
      unfold Context.getName at h
      have hp := List.find?_some h
      simp only [] at hp
      exact eq_of_beq hp

theorem NameNode.create_mem_names (C : Context) (s : String) :
    (NameNode.create C s).1 ∈ (NameNode.create C s).2.names := by
  unfold NameNode.create
  cases h : C.getName s with
  | none => simp [Context.addName]
  | some t =>
      simp only []
      exact List.mem_of_find?_eq_some h

theorem NameNode.create_WF_names (C : Context) (s : String) (hWF : C.WF) :
    (NameNode.create C s).2.WF := by
  obtain ⟨h1, h2, h3, h4⟩ := hWF
  unfold NameNode.create
  cases h : C.getName s with
  | some t => exact ⟨h1, h2, h3, h4⟩
  | none =>
      simp only [Context.addName]
      refine ⟨?_, ?_, ?_, ?_⟩
      · intro n hn
        rcases List.mem_cons.mp hn with h | h
        · subst h; exact Nat.lt_succ_self _
        · exact Nat.lt_succ_of_lt (h1 n h)
      · intro n hn
        exact Nat.lt_succ_of_lt (h2 n hn)
      · intro n hn m hm hid
        rcases List.mem_cons.mp hn with h | h <;>
          rcases List.mem_cons.mp hm with h' | h'
        · rw [h, h']
        · exfalso; rw [h] at hid
          exact Nat.lt_irrefl _ (hid ▸ h1 m h')
        · exfalso; rw [h'] at hid
          exact Nat.lt_irrefl _ (hid ▸ h1 n h)
        · exact h3 n h m h' hid
      · intro n hn m hm hid
        exact h4 n hn m hm hid

theorem NestedNameNode.create_key (C : Context) (sup nm : Nat) :
    (NestedNameNode.create C sup nm).1.superId = sup ∧
    (NestedNameNode.create C sup nm).1.nameId = nm := by
  unfold NestedNameNode.create
  cases h : C.getNestedName sup nm with
  | none => simp
  | some t =>
      simp only []
      unfold Context.getNestedName at h
      have hp := List.find?_some h
      simp only [Bool.and_eq_true] at hp
      exact ⟨eq_of_beq hp.1, eq_of_beq hp.2⟩

theorem NestedNameNode.create_mem_nested (C : Context) (sup nm : Nat) :
    (NestedNameNode.create C sup nm).1
      ∈ (NestedNameNode.create C sup nm).2.nested := by
  unfold NestedNameNode.create
  cases h : C.getNestedName sup nm with
  | none => simp [Context.addNestedName]
  | some t =>
      simp only []
      exact List.mem_of_find?_eq_some h

theorem NestedNameNode.create_WF_nested (C : Context) (sup nm : Nat) (hWF : C.WF) :
    (NestedNameNode.create C sup nm).2.WF := by
  obtain ⟨h1, h2, h3, h4⟩ := hWF
  unfold NestedNameNode.create
  cases h : C.getNestedName sup nm with
  | some t => exact ⟨h1, h2, h3, h4⟩
  | none =>
      simp only [Context.addNestedName]
      refine ⟨?_, ?_, ?_, ?_⟩
      · intro n hn
        exact Nat.lt_succ_of_lt (h1 n hn)
      · intro n hn
        rcases List.mem_cons.mp hn with h | h
        · subst h; exact Nat.lt_succ_self _
        · exact Nat.lt_succ_of_lt (h2 n h)
      · intro n hn m hm hid
        exact h3 n hn m hm hid
      · intro n hn m hm hid
        rcases List.mem_cons.mp hn with h | h <;>
          rcases List.mem_cons.mp hm with h' | h'
        · rw [h, h']
        · exfalso; rw [h] at hid
          exact Nat.lt_irrefl _ (hid ▸ h2 m h')
        · exfalso; rw [h'] at hid
          exact Nat.lt_irrefl _ (hid ▸ h2 n h)
        · exact h4 n h m h' hid

theorem Context.getName_mem {C : Context} {s : String} {t : NameNode}
    (h : C.getName s = some t) : t ∈ C.names := by
  unfold Context.getName at h
  exact List.mem_of_find?_eq_some h

theorem Context.getName_name {C : Context} {s : String} {t : NameNode}
    (h : C.getName s = some t) : t.name = s := by
  unfold Context.getName at h
  have hp := List.find?_some h
  simp only [] at hp
  exact eq_of_beq hp

theorem Context.getNestedName_mem {C : Context} {a b : Nat}
    {t : NestedNameNode} (h : C.getNestedName a b = some t) : t ∈ C.nested := by
  unfold Context.getNestedName at h
  exact List.mem_of_find?_eq_some h

theorem Context.getNestedName_key {C : Context} {a b : Nat}
    {t : NestedNameNode} (h : C.getNestedName a b = some t) :
    t.superId = a ∧ t.nameId = b := by
  unfold Context.getNestedName at h
  have hp := List.find?_some h
  simp only [Bool.and_eq_true] at hp
  exact ⟨eq_of_beq hp.1, eq_of_beq hp.2⟩

theorem NameNode.create_of_getName_some {C : Context} {s : String}
    {t : NameNode} (h : C.getName s = some t) :
    NameNode.create C s = (t, C) := by
  unfold NameNode.create
  rw [h]

theorem NameNode.create_of_getName_none {C : Context} {s : String}
    (h : C.getName s = none) :
    NameNode.create C s =
      (⟨C.nextId, s⟩,
       ⟨(⟨C.nextId, s⟩ : NameNode) :: C.names, C.nested, C.nextId + 1⟩) := by
  unfold NameNode.create
  rw [h]
  rfl

theorem NestedNameNode.create_of_getNestedName_some {C : Context} {a b : Nat}
    {t : NestedNameNode} (h : C.getNestedName a b = some t) :
    NestedNameNode.create C a b = (t, C) := by
  unfold NestedNameNode.create
  rw [h]

theorem NestedNameNode.create_of_getNestedName_none {C : Context} {a b : Nat}
    (h : C.getNestedName a b = none) :
    NestedNameNode.create C a b =
      (⟨C.nextId, a, b⟩,
       ⟨C.names, (⟨C.nextId, a, b⟩ : NestedNameNode) :: C.nested,
        C.nextId + 1⟩) := by
  unfold NestedNameNode.create
  rw [h]
  rfl

/-- C1: for every well-formed canonicalization context and string `s1`, two
calls to `NameNode::create` with `s1` return the identical shared instance
(the second call finds the node the first call returned), and for a
different string `s2` the instance returned next differs (distinct
address). -/
theorem NameNode.create_canonical_by_string (C : Context) (hWF : C.WF) (s1 s2 : String) :
    (NameNode.create (NameNode.create C s1).2 s1).1 = (NameNode.create C s1).1
    ∧ (s1 ≠ s2 →
        (NameNode.create (NameNode.create C s1).2 s2).1.id
          ≠ (NameNode.create C s1).1.id) := by
  obtain ⟨hb, -, hinj, -⟩ := hWF
  cases h1 : C.getName s1 with
  | some t =>
      rw [NameNode.create_of_getName_some h1]
      constructor
      · rw [NameNode.create_of_getName_some h1]
      · intro hne
        cases h2 : C.getName s2 with
        | some u =>
            rw [NameNode.create_of_getName_some h2]
            intro hid
            have hut : u = t :=
              hinj u (Context.getName_mem h2) t (Context.getName_mem h1) hid
            apply hne
            rw [← Context.getName_name h1, ← Context.getName_name h2, hut]
        | none =>
            rw [NameNode.create_of_getName_none h2]
            intro hid
            exact Nat.lt_irrefl _ (hid ▸ hb t (Context.getName_mem h1))
  | none =>
      rw [NameNode.create_of_getName_none h1]
      have hself : (⟨(⟨C.nextId, s1⟩ : NameNode) :: C.names, C.nested,
          C.nextId + 1⟩ : Context).getName s1 = some ⟨C.nextId, s1⟩ := by
        unfold Context.getName
        apply List.find?_cons_of_pos
        simp
      constructor
      · rw [NameNode.create_of_getName_some hself]
      · intro hne
        cases h2 : (⟨(⟨C.nextId, s1⟩ : NameNode) :: C.names, C.nested,
            C.nextId + 1⟩ : Context).getName s2 with
        | some u =>
            rw [NameNode.create_of_getName_some h2]
            intro hid
            have hnm := Context.getName_name h2
            rcases List.mem_cons.mp (Context.getName_mem h2) with h | h
            · apply hne
              rw [← hnm, h]
            · exact Nat.lt_irrefl _ (hid ▸ hb u h)
        | none =>
            rw [NameNode.create_of_getName_none h2]
            exact Nat.succ_ne_self _

theorem NameNode.create_canonical_by_string_witness :
    ((NameNode.create (NameNode.create Context.empty "a").2 "a").1
        = (NameNode.create Context.empty "a").1)
    ∧ ((NameNode.create (NameNode.create Context.empty "a").2 "b").1.id
        ≠ (NameNode.create Context.empty "a").1.id) :=
  ⟨(NameNode.create_canonical_by_string Context.empty Context.empty_WF "a" "b").1,
   (NameNode.create_canonical_by_string Context.empty Context.empty_WF "a" "b").2
     (by decide)⟩

/-- C2: for every well-formed context and pointer pair `(a, b)` of
already-built child nodes, two calls to `NestedNameNode::create` with the
identity pair `(a, b)` return the identical shared instance, and a call with
any other identity pair `(a2, b2)` — even one whose children are
structurally equal — returns a different instance (distinct address): the
cache key compares only the two child pointers. -/
theorem NestedNameNode.create_canonical_by_identity (C : Context) (hWF : C.WF)
    (a b a2 b2 : Nat) :
    (NestedNameNode.create (NestedNameNode.create C a b).2 a b).1
      = (NestedNameNode.create C a b).1
    ∧ ((a, b) ≠ (a2, b2) →
        (NestedNameNode.create (NestedNameNode.create C a b).2 a2 b2).1.id
          ≠ (NestedNameNode.create C a b).1.id) := by
  obtain ⟨-, hb, -, hinj⟩ := hWF
  cases h1 : C.getNestedName a b with
  | some t =>
      rw [NestedNameNode.create_of_getNestedName_some h1]
      constructor
      · rw [NestedNameNode.create_of_getNestedName_some h1]
      · intro hne
        cases h2 : C.getNestedName a2 b2 with
        | some u =>
            rw [NestedNameNode.create_of_getNestedName_some h2]
            intro hid
            have hut : u = t :=
              hinj u (Context.getNestedName_mem h2) t
                (Context.getNestedName_mem h1) hid
            apply hne
            obtain ⟨hk1, hk2⟩ := Context.getNestedName_key h1
            obtain ⟨hk1', hk2'⟩ := Context.getNestedName_key h2
            rw [← hk1, ← hk2, ← hk1', ← hk2', hut]
        | none =>
            rw [NestedNameNode.create_of_getNestedName_none h2]
            intro hid
            exact Nat.lt_irrefl _ (hid ▸ hb t (Context.getNestedName_mem h1))
  | none =>
      rw [NestedNameNode.create_of_getNestedName_none h1]
      have hself : (⟨C.names, (⟨C.nextId, a, b⟩ : NestedNameNode) :: C.nested,
          C.nextId + 1⟩ : Context).getNestedName a b
            = some ⟨C.nextId, a, b⟩ := by
        unfold Context.getNestedName
        apply List.find?_cons_of_pos
        simp
      constructor
      · rw [NestedNameNode.create_of_getNestedName_some hself]
      · intro hne
        cases h2 : (⟨C.names, (⟨C.nextId, a, b⟩ : NestedNameNode) :: C.nested,
            C.nextId + 1⟩ : Context).getNestedName a2 b2 with
        | some u =>
            rw [NestedNameNode.create_of_getNestedName_some h2]
            intro hid
            obtain ⟨hk1, hk2⟩ := Context.getNestedName_key h2
            rcases List.mem_cons.mp (Context.getNestedName_mem h2) with h | h
            · apply hne
              rw [← hk1, ← hk2, h]
            · exact Nat.lt_irrefl _ (hid ▸ hb u h)
        | none =>
            rw [NestedNameNode.create_of_getNestedName_none h2]
            exact Nat.succ_ne_self _

theorem NestedNameNode.create_canonical_by_identity_witness :
    ((NestedNameNode.create (NestedNameNode.create Context.empty 7 8).2 7 8).1
        = (NestedNameNode.create Context.empty 7 8).1)
    ∧ ((NestedNameNode.create
          (NestedNameNode.create Context.empty 7 8).2 7 9).1.id
        ≠ (NestedNameNode.create Context.empty 7 8).1.id) :=
  ⟨(NestedNameNode.create_canonical_by_identity Context.empty Context.empty_WF 7 8 7 9).1,
   (NestedNameNode.create_canonical_by_identity Context.empty Context.empty_WF 7 8 7 9).2
     (by decide)⟩

/-- C9 counterexample: `NameNode::create` performs no emptiness check — at
`s = ""` it returns a node carrying the empty string, so not every node a
context hands out has a non-empty identifier. -/
theorem NameNode.create_empty_string :
    (NameNode.create Context.empty "").1.name = "" := rfl

/-- C9 amended: the node returned by `NameNode::create(C, s)` carries exactly
the string `s`, so it is non-empty whenever the caller supplies a non-empty
string (the non-emptiness invariant is the parser's construction discipline,
not checked here). -/
theorem NameNode.create_name_nonempty (C : Context) (s : String)
    (h : s ≠ "") :
    (NameNode.create C s).1.name = s ∧ (NameNode.create C s).1.name ≠ "" :=
  ⟨NameNode.create_name C s, by rw [NameNode.create_name C s]; exact h⟩

theorem NameNode.create_name_nonempty_witness :
    (NameNode.create Context.empty "x").1.name = "x"
    ∧ (NameNode.create Context.empty "x").1.name ≠ "" :=
  NameNode.create_name_nonempty Context.empty "x" (by decide)

example :
    (Node.function (.name "foo")
      (.functionType (.name "int") (.nodeArray [.name "int"]))).str
      = "int foo(int)" := by
  simp [Node.str, Node.print, Node.printLeft, Node.printRight, Node.printList,
    Node.hasRight]

example : (Node.nodeArray [.name "a", .name "b", .name "c"]).str = "a, b, c" := by
  simp [Node.str, Node.print, Node.printLeft, Node.printRight, Node.printList,
    Node.hasRight]

example : (Node.templateN (.name "N") none).str = "N<>" := by
  simp [Node.str, Node.print, Node.printLeft, Node.printRight, Node.hasRight]

example : (Node.templateN (.name "N") (some (.nodeArray []))).str = "N<>" := by
  simp [Node.str, Node.print, Node.printLeft, Node.printRight, Node.hasRight]

example : (Node.nestedName (.name "A") (.name "B")).str = "A::B" := by
  simp [Node.str, Node.print, Node.printLeft, Node.printRight, Node.hasRight]

example : (Node.conversionOperator (.name "int")).str = "operator int" := by
  simp [Node.str, Node.print, Node.printLeft, Node.printRight, Node.hasRight]

/-- C10: `str` and `print` always agree — `print` writes after any existing
stream content exactly the character sequence `str` returns, and `str` is
`print` into a fresh empty stream (both are pure functions of the node, so
neither can modify it). -/
theorem Node.str_print_agree (n : Node) (s : List Char) :
    n.print s = s ++ n.str.data ∧ n.str.data = n.print [] :=
  ⟨by rw [Node.print_append]; rfl, rfl⟩

/-- C4: the top-level `print` runs `printLeft` and then runs `printRight`
exactly when the node's `_has_right` flag is set; and every variant of
`borland_ast.cpp` inherits the default `printRight`, which writes nothing
(only the spec-modelled `FunctionTypeNode` overrides it). -/
theorem Node.print_protocol (n : Node) (s : List Char) :
    (n.print s =
      if n.hasRight then n.printRight (n.printLeft s) else n.printLeft s)
    ∧ ((∀ rt ps, n ≠ Node.functionType rt ps) → n.printRight s = s) := by
  constructor
  · rw [Node.print]
  · intro h
    cases n with
    | functionType rt ps => exact absurd rfl (h rt ps)
    | name nm => simp [Node.printRight]
    | nestedName sup nm => simp [Node.printRight]
    | function nm ftype => simp [Node.printRight]
    | templateN nm params => simp [Node.printRight]
    | nodeArray nodes => simp [Node.printRight]
    | conversionOperator type => simp [Node.printRight]

theorem Node.print_protocol_witness :
    ((Node.name "x").print ['q'] =
      if (Node.name "x").hasRight then
        (Node.name "x").printRight ((Node.name "x").printLeft ['q'])
      else (Node.name "x").printLeft ['q'])
    ∧ (Node.name "x").printRight ['q'] = ['q'] :=
  ⟨(Node.print_protocol (Node.name "x") ['q']).1,
   (Node.print_protocol (Node.name "x") ['q']).2
     (fun _ _ h => Node.noConfusion h)⟩

/-- C3: `FunctionNode::printLeft` emits, in order, the function-type child's
left fragment, the full rendering of the name node, then the function-type
child's right fragment; concretely, a function node wrapping return type
`int`, name `"foo"`, and a one-element parameter list `int` prints exactly
`int foo(int)`. -/
theorem Node.function_print_interleave (nm ftype : Node) (s : List Char) :
    (Node.function nm ftype).printLeft s
        = ftype.printRight (nm.print (ftype.printLeft s))
    ∧ (Node.function (.name "foo")
        (.functionType (.name "int") (.nodeArray [.name "int"]))).str
          = "int foo(int)" := by
  constructor
  · rw [Node.printLeft]
  · simp [Node.str, Node.print, Node.printLeft, Node.printRight,
      Node.printList, Node.hasRight]

/-- C5: a template node with an absent (`nullptr`) parameter list and one
with an empty `NodeArray` print the same output, namely the rendering of the
name followed by `<>` with nothing between the angle brackets. -/
theorem Node.template_absent_eq_empty (N : Node) :
    (Node.templateN N none).str = (Node.templateN N (some (.nodeArray []))).str
    ∧ (Node.templateN N none).str = N.str ++ "<>" := by
  have hn : (Node.templateN N none).print []
      = (N.print [] ++ "<".toList) ++ ">".toList := by
    simp [Node.print, Node.printLeft, Node.hasRight]
  have he : (Node.templateN N (some (.nodeArray []))).print []
      = (N.print [] ++ "<".toList) ++ ">".toList := by
    simp [Node.print, Node.printLeft, Node.hasRight]
  constructor
  · unfold Node.str
    rw [hn, he]
  · apply String.ext
    unfold Node.str
    rw [hn]
    rw [String.data_append]
    simp [Node.str]

/-- Appending via `addNode` builds exactly the given child sequence. -/
theorem NodeArray.foldl_addNode (cs : List Node) (acc : List Node) :
    cs.foldl NodeArray.addNode acc = acc ++ cs := by
  induction cs generalizing acc with
  | nil => simp
  | cons c rest ih =>
      rw [List.foldl_cons, ih]
      simp [NodeArray.addNode]

/-- The printing loop of `NodeArray::printLeft` computes the tail of
`String.intercalate`. -/
theorem Node.printList_intercalate (rest : List Node) (acc : List Char) :
    Node.printList rest acc
      = (String.intercalate.go (String.mk acc) ", " (rest.map Node.str)).data := by
  induction rest generalizing acc with
  | nil =>
      rw [Node.printList]
      rfl
  | cons c t ih =>
      rw [Node.printList, ih]
      have hacc : String.mk (c.print (acc ++ ", ".toList))
          = String.mk acc ++ ", " ++ c.str := by
        apply String.ext
        rw [Node.print_append]
        simp [Node.str]
      rw [hacc]
      rfl

/-- C6: for every sequence of children appended through `addNode`, printing
the `NodeArray` renders the children in insertion order, separated by
`", "`, with no leading or trailing separator — exactly
`String.intercalate ", "` of the children's renderings. -/
theorem NodeArray.print_insertion_order (cs : List Node) :
    (Node.nodeArray (cs.foldl NodeArray.addNode [])).str
      = String.intercalate ", " (cs.map Node.str) := by
  rw [NodeArray.foldl_addNode, List.nil_append]
  cases cs with
  | nil =>
      unfold Node.str
      rw [Node.print, Node.printLeft]
      simp [Node.hasRight, String.intercalate]
  | cons c rest =>
      unfold Node.str
      rw [Node.print, Node.printLeft]
      simp only [Node.hasRight, Bool.false_eq_true, if_false]
      rw [Node.printList_intercalate]
      show String.mk (String.intercalate.go (String.mk (c.print [])) ", "
        (rest.map Node.str)).data = _
      rfl

/-- C7: when both qualifier flags are set — however they were supplied to the
constructor — both helpers render the `volatile` token before the `const`
token: `printSpaceL` gives `" volatile const"` and `printSpaceR` gives
`"volatile const "`. -/
theorem Qualifiers.volatile_before_const (v c : Bool) (hv : v = true)
    (hc : c = true) (s : List Char) :
    (Qualifiers.mk v c).printSpaceL s = s ++ " volatile const".toList
    ∧ (Qualifiers.mk v c).printSpaceR s = s ++ "volatile const ".toList := by
  subst hv
  subst hc
  have hL : " volatile".toList ++ " const".toList = " volatile const".toList :=
    rfl
  have hR : "volatile ".toList ++ "const ".toList = "volatile const ".toList :=
    rfl
  constructor
  · rw [Qualifiers.printSpaceL]
    simp [List.append_assoc, hL]
  · rw [Qualifiers.printSpaceR]
    simp [List.append_assoc, hR]

theorem Qualifiers.volatile_before_const_witness :
    (Qualifiers.mk true true).printSpaceL [] = [] ++ " volatile const".toList
    ∧ (Qualifiers.mk true true).printSpaceR []
        = [] ++ "volatile const ".toList :=
  Qualifiers.volatile_before_const true true rfl rfl []

/-- C8: `NodeArray::get` at any index at or beyond the size returns an
absent (`nullptr`) result; the access is total. -/
theorem NodeArray.get_out_of_range (nodes : List Node) (i : Nat)
    (h : NodeArray.size nodes ≤ i) : NodeArray.get nodes i = none := by
  unfold NodeArray.size at h
  unfold NodeArray.get
  rw [dif_neg (Nat.not_lt.mpr h)]

theorem NodeArray.get_out_of_range_witness :
    NodeArray.get [Node.name "x"] 5 = none :=
  NodeArray.get_out_of_range [Node.name "x"] 5 (by decide)

end RetdecBorland
